import Mathlib

/-!
Verification development for the Cell2Cell churn lab notebook
(`src/ipython/Labs_Student/Lab_Sklearn_Magic_Student.ipynb`).

The notebook's own code is a linear sequence of calls: shuffle the rows,
drop five named columns, separate the `churndep` label, build 4 folds,
and run three cross-validated grid searches (plain logistic regression,
scaler + LR pipeline, polynomial + scaler + LR pipeline).  The
cross-validation splitter, the grid search and the pipeline combinator are
library components whose code is not part of the repository, so they are
modelled here from the specification's component contracts (each such
definition carries a `Modelled from the spec:` doc comment).  The concrete
hyper-parameter grids, the dropped-column list and the workflow wiring are
translated directly from the notebook cells.
-/

namespace Cell2Cell

/-- Error taxonomy of the spec: `InvalidConfiguration` (malformed fold count
or empty hyper-parameter grid), `FitFailure` (a pipeline stage cannot be fit),
`DataShapeMismatch` (feature matrix and label vector row counts disagree). -/
inductive WorkflowError where
  | invalidConfiguration : String → WorkflowError
  | fitFailure : String → WorkflowError
  | dataShapeMismatch : WorkflowError
deriving DecidableEq, Repr

/-- Modelled from the spec: the fold partitioner's deterministic assignment of
row index `j` to one of `K` contiguous groups (the first `n % K` groups have
size `n / K + 1`, the rest have size `n / K`).  The partitioner itself
(`sklearn.cross_validation.KFold`) is not part of the repository source. -/
def assignKF (n K j : ℕ) : ℕ :=
  if j < (n % K) * (n / K + 1) then j / (n / K + 1)
  else (n % K) + (j - (n % K) * (n / K + 1)) / (n / K)

/-- First row index of group `i` under `assignKF`. -/
def startKF (n K i : ℕ) : ℕ :=
  if i ≤ n % K then i * (n / K + 1)
  else (n % K) * (n / K + 1) + (i - n % K) * (n / K)

/-- Group `i` of the fold partition: all row indices assigned to `i`. -/
def kfGroup (n K i : ℕ) : Finset ℕ :=
  (Finset.range n).filter (fun j => assignKF n K j = i)

/-- Validation index set of fold `i` (the held-out group). -/
def valIdx (n K i : ℕ) : Finset ℕ := kfGroup n K i

/-- Training index set of fold `i` (all indices outside group `i`). -/
def trainIdx (n K i : ℕ) : Finset ℕ :=
  (Finset.range n).filter (fun j => assignKF n K j ≠ i)

/-- Modelled from the spec: the fold partitioner contract of §4.1.  Given a
sample count `n` and fold count `K` it deterministically produces the `K`
groups, and fails with `InvalidConfiguration` if `K < 2` or `K > n`. -/
def kfolds (n K : ℕ) : Except WorkflowError (List (Finset ℕ)) :=
  if K < 2 ∨ n < K then
    Except.error (WorkflowError.invalidConfiguration "n_folds out of range")
  else
    Except.ok ((List.range K).map (kfGroup n K))

/-- Modelled from the spec: the per-fold (training, validation) index pairs
exposed by the partitioner. -/
def kfoldSplits (n K : ℕ) : Except WorkflowError (List (Finset ℕ × Finset ℕ)) :=
  (kfolds n K).map (fun gs =>
    (List.range gs.length).map (fun i => (trainIdx n K i, valIdx n K i)))

/-- A feature matrix: a list of rows, each row a list of rational feature
values (the spec's fixed-width tuples of numeric fields). -/
abbrev Matrix := List (List ℚ)

/-- The elements of a finite index set, enumerated in increasing order. -/
def idxList (s : Finset ℕ) : List ℕ :=
  (List.range (s.sup id + 1)).filter (fun i => decide (i ∈ s))

/-- Rows of `X` at the indices of `s`, in increasing index order. -/
def selectRows (X : Matrix) (s : Finset ℕ) : Matrix :=
  (idxList s).filterMap (fun i => X[i]?)

/-- Label values of `Y` at the indices of `s`, in increasing index order. -/
def selectVals (Y : List ℚ) (s : Finset ℕ) : List ℚ :=
  (idxList s).filterMap (fun i => Y[i]?)

/-- Arithmetic mean of a list of rationals. -/
def mean (l : List ℚ) : ℚ := l.sum / l.length

/-- Predicted scores of the positive-label examples. -/
def posScores (l : List (ℚ × Bool)) : List ℚ :=
  (l.filter (fun x => x.2)).map Prod.fst

/-- Predicted scores of the negative-label examples. -/
def negScores (l : List (ℚ × Bool)) : List ℚ :=
  (l.filter (fun x => !x.2)).map Prod.fst

/-- Contribution of one (positive, negative) pair to the AUC: 1 if the
positive example is ranked strictly higher, 1/2 on a tie, 0 otherwise. -/
def pairScore (p q : ℚ) : ℚ := if q < p then 1 else if p = q then 1/2 else 0

/-- Modelled from the spec: the area-under-ROC-curve metric on a list of
(predicted score, true label) pairs, as the normalised count of correctly
ranked (positive, negative) pairs.  The metric implementation
(`sklearn`'s `roc_auc` scorer) is not part of the repository source. -/
def auc (l : List (ℚ × Bool)) : ℚ :=
  ((posScores l).map (fun p => ((negScores l).map (pairScore p)).sum)).sum /
    (((posScores l).length : ℚ) * ((negScores l).length : ℚ))

/-- A non-terminal pipeline stage: fitting it on training data either fails
or yields the learned transform to apply to any later data. -/
structure TransformStage where
  name : String
  fit : Matrix → Except WorkflowError (Matrix → Matrix)

/-- The terminal pipeline stage: fitting it on training data and labels
either fails or yields the learned decision function producing one
prediction score per row. -/
structure TerminalStage where
  name : String
  fit : Matrix → List ℚ → Except WorkflowError (Matrix → List ℚ)

/-- Modelled from the spec: a pipeline is an ordered sequence of named
non-terminal transform stages followed by one terminal classifier stage
(`sklearn.pipeline.Pipeline` is not part of the repository source). -/
structure Pipeline where
  transforms : List TransformStage
  terminal : TerminalStage

/-- The learned state of a fitted pipeline: the stage names in order, the
fitted transform of each non-terminal stage, and the fitted decision
function of the terminal classifier. -/
structure FittedPipeline where
  stageNames : List String
  transFuns : List (Matrix → Matrix)
  decisionFun : Matrix → List ℚ

/-- Sequentially apply already-fitted transforms to a matrix. -/
def applyAll (fs : List (Matrix → Matrix)) (X : Matrix) : Matrix :=
  fs.foldl (fun d f => f d) X

/-- Modelled from the spec: fit each non-terminal stage on the current data
and transform it before passing the output to the next stage, in order. -/
def fitTransforms : List TransformStage → Matrix →
    Except WorkflowError (List (Matrix → Matrix) × Matrix)
  | [], X => Except.ok ([], X)
  | s :: rest, X =>
    match s.fit X with
    | Except.error e => Except.error e
    | Except.ok f =>
      match fitTransforms rest (f X) with
      | Except.error e => Except.error e
      | Except.ok (fs, Xfinal) => Except.ok (f :: fs, Xfinal)

/-- Modelled from the spec: fitting a pipeline on a training set fits the
non-terminal stages in order, then fits the terminal classifier on the final
transformed data and the labels. -/
def fitPipeline (P : Pipeline) (X : Matrix) (Y : List ℚ) :
    Except WorkflowError FittedPipeline :=
  match fitTransforms P.transforms X with
  | Except.error e => Except.error e
  | Except.ok (fs, Xfinal) =>
    match P.terminal.fit Xfinal Y with
    | Except.error e => Except.error e
    | Except.ok d =>
      Except.ok ⟨P.transforms.map TransformStage.name ++ [P.terminal.name], fs, d⟩

/-- Modelled from the spec: applying a fitted pipeline to new data applies
each stage's learned transform in order (no refitting) and then the terminal
classifier's decision function. -/
def predictFitted (fp : FittedPipeline) (X : Matrix) : List ℚ :=
  fp.decisionFun (applyAll fp.transFuns X)

/-- A churn label is positive when the `churndep` field equals 1. -/
def isPos (y : ℚ) : Bool := y = 1

/-- Modelled from the spec: one (configuration, fold) evaluation — fit the
pipeline on the fold's training rows and labels, score the validation rows,
and compute the AUC against the validation labels. -/
def foldEval (P : Pipeline) (X : Matrix) (Y : List ℚ) (tr va : Finset ℕ) :
    Except WorkflowError ℚ :=
  match fitPipeline P (selectRows X tr) (selectVals Y tr) with
  | Except.error e => Except.error e
  | Except.ok fp =>
    Except.ok
      (auc ((predictFitted fp (selectRows X va)).zip ((selectVals Y va).map isPos)))

/-- Effectful map over a list in the `Except` monad, failing on the first
error (the sequential evaluation loop of the grid search). -/
def mapME {α β : Type} (f : α → Except WorkflowError β) :
    List α → Except WorkflowError (List β)
  | [] => Except.ok []
  | a :: l =>
    match f a with
    | Except.error e => Except.error e
    | Except.ok b =>
      match mapME f l with
      | Except.error e => Except.error e
      | Except.ok r => Except.ok (b :: r)

/-- Modelled from the spec: the K per-fold AUC scores of one configuration,
evaluated over the shared train/validation splits. -/
def cvScores (P : Pipeline) (X : Matrix) (Y : List ℚ)
    (splits : List (Finset ℕ × Finset ℕ)) : Except WorkflowError (List ℚ) :=
  mapME (fun s => foldEval P X Y s.1 s.2) splits

/-- Modelled from the spec: a configuration's reported score is the
arithmetic mean of its per-fold scores. -/
def cvMeanScore (P : Pipeline) (X : Matrix) (Y : List ℚ)
    (splits : List (Finset ℕ × Finset ℕ)) : Except WorkflowError ℚ :=
  (cvScores P X Y splits).map mean

/-- Modelled from the spec: select the scored candidate with the maximum
score, ties broken in favour of the earliest-encountered candidate. -/
def bestBy {α : Type} : List (α × ℚ) → Option (α × ℚ)
  | [] => none
  | p :: rest =>
    match bestBy rest with
    | none => some p
    | some q => if p.2 < q.2 then some q else some p

/-- Modelled from the spec: pair one candidate configuration with its mean
cross-validation score. -/
def scoreConfig {α : Type} (mk : α → Pipeline) (X : Matrix) (Y : List ℚ)
    (splits : List (Finset ℕ × Finset ℕ)) (c : α) : Except WorkflowError (α × ℚ) :=
  match cvMeanScore (mk c) X Y splits with
  | Except.error e => Except.error e
  | Except.ok s => Except.ok (c, s)

/-- Modelled from the spec: grid search with cross-validation —
score every candidate configuration of `grid` (instantiated into a pipeline
by `mk`) on the shared `splits`, and return the best (configuration, mean
score) pair; an empty grid is an `InvalidConfiguration` error
(`sklearn.grid_search.GridSearchCV` is not part of the repository source). -/
def gridSearchCV {α : Type} (mk : α → Pipeline) (X : Matrix) (Y : List ℚ)
    (splits : List (Finset ℕ × Finset ℕ)) (grid : List α) :
    Except WorkflowError (α × ℚ) :=
  match mapME (scoreConfig mk X Y splits) grid with
  | Except.error e => Except.error e
  | Except.ok scored =>
    match bestBy scored with
    | some b => Except.ok b
    | none => Except.error (WorkflowError.invalidConfiguration "empty parameter grid")

/-- A trivial concrete terminal stage whose fitted decision function scores
every row 0 (used to instantiate the abstract classifier on small inputs). -/
def zeroClassifier : TerminalStage :=
  ⟨"lr", fun _ _ => Except.ok (fun m => m.map (fun _ => 0))⟩

/-- A concrete pipeline with no transform stages. -/
def lrPipe : Pipeline := ⟨[], zeroClassifier⟩

/-- A concrete terminal stage whose fit always fails (a degenerate
configuration). -/
def failingClassifier : TerminalStage :=
  ⟨"lr", fun _ _ => Except.error (WorkflowError.fitFailure "lr")⟩

/-- A concrete pipeline whose terminal stage cannot be fit. -/
def failingPipe : Pipeline := ⟨[], failingClassifier⟩

/-- A data row: the named numeric fields of one record of the input table. -/
abbrev Row := List (String × ℚ)

/-- The five redundant columns dropped before modeling
(notebook cell: `dropvar_list = ['incalls', 'creditcd', 'marryyes', 'travel', 'pcown']`). -/
def dropvar_list : List String := ["incalls", "creditcd", "marryyes", "travel", "pcown"]

/-- Drop the five redundant fields from one row
(notebook: `data.drop(dropvar_list, 1)`). -/
def dropVars (r : Row) : Row :=
  r.filter (fun p => decide (p.1 ∉ dropvar_list))

/-- The column-filtered table (notebook: `data_subset`). -/
def data_subset (data : List Row) : List Row := data.map dropVars

/-- The feature fields of one already-filtered row: everything except the
`churndep` label (notebook: `X = data_subset.drop('churndep', 1)`). -/
def xRow (r : Row) : Row :=
  r.filter (fun p => decide (p.1 ≠ "churndep"))

/-- The feature table (notebook: `X`). -/
def dataX (data : List Row) : List Row := (data_subset data).map xRow

/-- The `churndep` label of one row (notebook: `Y = data_subset['churndep']`). -/
def yVal (r : Row) : Option ℚ :=
  (r.find? (fun p => p.1 == "churndep")).map Prod.snd

/-- The label column (notebook: `Y`). -/
def dataY (data : List Row) : List (Option ℚ) := (data_subset data).map yVal

/-- The feature table as a numeric matrix in row order. -/
def dataXm (data : List Row) : Matrix := (dataX data).map (fun r => r.map Prod.snd)

/-- The label column as numeric values in row order. -/
def dataYv (data : List Row) : List ℚ := (dataY data).map (fun o => o.getD 0)

/-- The initial random row shuffle, as an explicit permutation applied to the
table (notebook: `data = data.sample(frac = 1)`). -/
def applyPerm (σ : List ℕ) (d : List Row) : List Row :=
  σ.filterMap (fun i => d[i]?)

/-- A plain logistic-regression configuration: the regularisation weight `C`
and the penalty kind. -/
structure LRConfig where
  C : ℚ
  penalty : String
deriving DecidableEq, Repr

/-- A polynomial-pipeline configuration: polynomial degree, the
interaction-only flag, and the logistic-regression hyper-parameters. -/
structure PolyConfig where
  degree : ℕ
  interactionOnly : Bool
  C : ℚ
  penalty : String
deriving DecidableEq, Repr

/-- The candidate regularisation weights
(notebook: `[10**i for i in range(-3, 3)]`). -/
def lrCs : List ℚ := [1/1000, 1/100, 1/10, 1, 10, 100]

/-- The candidate penalties (notebook: `['l1','l2']`). -/
def penalties : List String := ["l1", "l2"]

/-- The candidate polynomial degrees (notebook: `polyfeat__degree = [1, 2]`). -/
def degrees : List ℕ := [1, 2]

/-- The candidate interaction-only flags
(notebook: `polyfeat__interaction_only = [True, False]`). -/
def interactionOnlyCands : List Bool := [true, false]

/-- Modelled from the spec: the Cartesian-product enumeration of the plain
logistic-regression grid (notebook: `param_grid_lr`). -/
def param_grid_lr : List LRConfig :=
  lrCs.flatMap (fun c => penalties.map (fun p => ⟨c, p⟩))

/-- The scaler-pipeline grid uses the same two candidate lists
(notebook: `parameters_scaler`). -/
def parameters_scaler : List LRConfig := param_grid_lr

/-- Modelled from the spec: the Cartesian-product enumeration of the
polynomial-pipeline grid (notebook: `parameters_poly`). -/
def parameters_poly : List PolyConfig :=
  degrees.flatMap (fun d =>
    interactionOnlyCands.flatMap (fun io =>
      lrCs.flatMap (fun c =>
        penalties.map (fun p => ⟨d, io, c, p⟩))))

/-- The notebook's end-to-end workflow: shuffle the rows once, extract the
feature matrix and label vector, build the 4-fold splits once, and run the
three grid searches on those shared splits.  The three pipeline families
(plain LR, scaler + LR, polynomial + scaler + LR) are parameters, since the
numeric fitting of their stages is delegated to the library. -/
def workflow (mkLR mkScaler : LRConfig → Pipeline) (mkPoly : PolyConfig → Pipeline)
    (d : List Row) (σ : List ℕ) :
    Except WorkflowError ((LRConfig × ℚ) × (LRConfig × ℚ) × (PolyConfig × ℚ)) :=
  let sh := applyPerm σ d
  let X := dataXm sh
  let Y := dataYv sh
  match kfoldSplits X.length 4 with
  | Except.error e => Except.error e
  | Except.ok splits =>
    match gridSearchCV mkLR X Y splits param_grid_lr with
    | Except.error e => Except.error e
    | Except.ok r1 =>
      match gridSearchCV mkScaler X Y splits parameters_scaler with
      | Except.error e => Except.error e
      | Except.ok r2 =>
        match gridSearchCV mkPoly X Y splits parameters_poly with
        | Except.error e => Except.error e
        | Except.ok r3 => Except.ok (r1, r2, r3)

/-- A concrete 2-row, 1-column feature matrix for instantiations. -/
def witnessX : Matrix := [[0], [1]]

/-- A concrete 2-row label vector for instantiations. -/
def witnessY : List ℚ := [0, 1]

/-- A concrete single train/validation split for instantiations. -/
def witnessSplits : List (Finset ℕ × Finset ℕ) := [({0}, {1})]

/-- A concrete logistic-regression configuration for instantiations. -/
def witnessCfg : LRConfig := ⟨1, "l1"⟩

/-- A concrete pipeline family mapping every configuration to `lrPipe`. -/
def mkLRPipe : LRConfig → Pipeline := fun _ => lrPipe

/-- A concrete polynomial-pipeline family for instantiations. -/
def mkPolyPipe : PolyConfig → Pipeline := fun _ => lrPipe

/-- A concrete pipeline family whose fit always fails. -/
def mkFailPipe : LRConfig → Pipeline := fun _ => failingPipe

/-- A concrete data row for instantiations. -/
def witnessRow : Row := [("revenue", 3), ("incalls", 2), ("churndep", 1)]

/-- A concrete one-row table for instantiations. -/
def witnessData : List Row := [witnessRow]

lemma assignKF_lt (n K : ℕ) (hK : 0 < K) (hKn : K ≤ n) {j : ℕ} (hj : j < n) :
    assignKF n K j < K := by
  have hq : 1 ≤ n / K := (Nat.one_le_div_iff hK).mpr hKn
  have hr : n % K < K := Nat.mod_lt _ hK
  unfold assignKF
  split
  · rename_i h
    have : j / (n / K + 1) < n % K :=
      Nat.div_lt_of_lt_mul (by simpa [Nat.mul_comm] using h)
    omega
  · rename_i h
    push_neg at h
    have hn : n = K * (n / K) + n % K := (Nat.div_add_mod n K).symm
    have hlt : j - (n % K) * (n / K + 1) < (K - n % K) * (n / K) := by
      have : (n % K) * (n / K + 1) + (K - n % K) * (n / K) = n := by
        have hrK : n % K ≤ K := le_of_lt hr
        calc (n % K) * (n / K + 1) + (K - n % K) * (n / K)
            = (n % K) * (n / K) + (n % K) + (K - n % K) * (n / K) := by ring_nf
          _ = ((n % K) + (K - n % K)) * (n / K) + (n % K) := by ring_nf
          _ = K * (n / K) + n % K := by rw [Nat.add_sub_cancel' hrK]
          _ = n := by omega
      omega
    have : (j - (n % K) * (n / K + 1)) / (n / K) < K - n % K :=
      Nat.div_lt_of_lt_mul (by simpa [Nat.mul_comm] using hlt)
    omega

lemma assignKF_startKF (n K : ℕ) (hK : 0 < K) (hKn : K ≤ n) {i : ℕ} (hi : i < K) :
    assignKF n K (startKF n K i) = i ∧ startKF n K i < n := by
  have hq : 1 ≤ n / K := (Nat.one_le_div_iff hK).mpr hKn
  have hr : n % K < K := Nat.mod_lt _ hK
  have hn : (n % K) * (n / K + 1) + (K - n % K) * (n / K) = n := by
    have hrK : n % K ≤ K := le_of_lt hr
    have hnd : n = K * (n / K) + n % K := (Nat.div_add_mod n K).symm
    calc (n % K) * (n / K + 1) + (K - n % K) * (n / K)
        = ((n % K) + (K - n % K)) * (n / K) + (n % K) := by ring_nf
      _ = K * (n / K) + n % K := by rw [Nat.add_sub_cancel' hrK]
      _ = n := by omega
  unfold startKF
  split
  · rename_i hile
    rcases Nat.lt_or_ge i (n % K) with hilt | hige
    · constructor
      · unfold assignKF
        have hb : i * (n / K + 1) < (n % K) * (n / K + 1) :=
          mul_lt_mul_of_pos_right hilt (Nat.succ_pos _)
        rw [if_pos hb]
        exact Nat.mul_div_cancel i (Nat.succ_pos _)
      · have hb : i * (n / K + 1) < (n % K) * (n / K + 1) :=
          mul_lt_mul_of_pos_right hilt (Nat.succ_pos _)
        have : (n % K) * (n / K + 1) ≤ n := by
          have : 0 < (K - n % K) * (n / K) := by
            have : 0 < K - n % K := by omega
            exact Nat.mul_pos this hq
          omega
        omega
    · have hieq : i = n % K := le_antisymm hile hige
      subst hieq
      constructor
      · unfold assignKF
        rw [if_neg (lt_irrefl _)]
        simp
      · have : 0 < (K - n % K) * (n / K) := by
          have : 0 < K - n % K := by omega
          exact Nat.mul_pos this hq
        omega
  · rename_i hgt
    push_neg at hgt
    constructor
    · unfold assignKF
      have hge : ¬ (n % K) * (n / K + 1) + (i - n % K) * (n / K) < (n % K) * (n / K + 1) := by
        omega
      rw [if_neg hge]
      have : (n % K) * (n / K + 1) + (i - n % K) * (n / K) - (n % K) * (n / K + 1)
          = (i - n % K) * (n / K) := by omega
      rw [this, Nat.mul_div_cancel _ (by omega : 0 < n / K)]
      omega
    · have : (i - n % K) * (n / K) < (K - n % K) * (n / K) :=
        mul_lt_mul_of_pos_right (by omega) (by omega)
      omega

lemma kfGroup_nonempty (n K : ℕ) (hK : 0 < K) (hKn : K ≤ n) {i : ℕ} (hi : i < K) :
    (kfGroup n K i).Nonempty := by
  obtain ⟨ha, hlt⟩ := assignKF_startKF n K hK hKn hi
  exact ⟨startKF n K i, by simp [kfGroup, Finset.mem_filter, Finset.mem_range, ha, hlt]⟩

lemma kfGroup_disjoint (n K : ℕ) {i j : ℕ} (hij : i ≠ j) :
    Disjoint (kfGroup n K i) (kfGroup n K j) := by
  rw [Finset.disjoint_left]
  intro a ha hb
  rw [kfGroup, Finset.mem_filter] at ha hb
  exact hij (ha.2 ▸ hb.2 ▸ rfl)

lemma kfGroup_biUnion (n K : ℕ) (hK : 0 < K) (hKn : K ≤ n) :
    (Finset.range K).biUnion (kfGroup n K) = Finset.range n := by
  apply Finset.ext
  intro j
  simp only [Finset.mem_biUnion, Finset.mem_range, kfGroup, Finset.mem_filter]
  constructor
  · rintro ⟨i, _, hj, _⟩
    exact hj
  · intro hj
    exact ⟨assignKF n K j, assignKF_lt n K hK hKn hj, hj, rfl⟩

lemma trainIdx_eq_biUnion (n K : ℕ) (hK : 0 < K) (hKn : K ≤ n) {i : ℕ} :
    trainIdx n K i = ((Finset.range K).erase i).biUnion (kfGroup n K) := by
  apply Finset.ext
  intro j
  simp only [trainIdx, Finset.mem_filter, Finset.mem_range, Finset.mem_biUnion,
    Finset.mem_erase, kfGroup]
  constructor
  · rintro ⟨hj, hne⟩
    exact ⟨assignKF n K j, ⟨hne, assignKF_lt n K hK hKn hj⟩, hj, rfl⟩
  · rintro ⟨a, ⟨hne, _⟩, hj, ha⟩
    exact ⟨hj, by rw [ha]; exact hne⟩

lemma bestBy_cons_ne_none {α : Type} (p : α × ℚ) (l : List (α × ℚ)) :
    bestBy (p :: l) ≠ none := by
  intro h
  rw [bestBy] at h
  split at h
  · exact Option.noConfusion h
  · rename_i q hr
    by_cases hpq : p.2 < q.2
    · rw [if_pos hpq] at h
      exact Option.noConfusion h
    · rw [if_neg hpq] at h
      exact Option.noConfusion h

lemma bestBy_mem {α : Type} {l : List (α × ℚ)} {b : α × ℚ} (h : bestBy l = some b) :
    b ∈ l := by
  induction l with
  | nil => simp [bestBy] at h
  | cons p rest ih =>
    rw [bestBy] at h
    split at h
    · injection h with h
      subst h
      exact List.mem_cons_self _ _
    · rename_i q hr
      by_cases hpq : p.2 < q.2
      · rw [if_pos hpq] at h
        injection h with h
        subst h
        exact List.mem_cons_of_mem _ (ih hr)
      · rw [if_neg hpq] at h
        injection h with h
        subst h
        exact List.mem_cons_self _ _

lemma bestBy_max {α : Type} : ∀ {l : List (α × ℚ)} {b : α × ℚ},
    bestBy l = some b → ∀ p ∈ l, p.2 ≤ b.2 := by
  intro l
  induction l with
  | nil =>
    intro b h
    simp [bestBy] at h
  | cons p rest ih =>
    intro b h
    rw [bestBy] at h
    split at h
    · rename_i hr
      injection h with h
      subst h
      intro x hx
      rcases List.mem_cons.mp hx with rfl | hx2
      · exact le_refl _
      · cases rest with
        | nil => cases hx2
        | cons y t => exact absurd hr (bestBy_cons_ne_none y t)
    · rename_i q hr
      by_cases hpq : p.2 < q.2
      · rw [if_pos hpq] at h
        injection h with h
        subst h
        intro x hx
        rcases List.mem_cons.mp hx with rfl | hx2
        · exact le_of_lt hpq
        · exact ih hr x hx2
      · rw [if_neg hpq] at h
        injection h with h
        subst h
        intro x hx
        rcases List.mem_cons.mp hx with rfl | hx2
        · exact le_refl _
        · exact le_trans (ih hr x hx2) (not_lt.mp hpq)

lemma bestBy_first {α : Type} {l : List (α × ℚ)} {b : α × ℚ} (h : bestBy l = some b) :
    ∃ l1 l2, l = l1 ++ b :: l2 ∧ ∀ p ∈ l1, p.2 < b.2 := by
  induction l with
  | nil => simp [bestBy] at h
  | cons p rest ih =>
    rw [bestBy] at h
    split at h
    · injection h with h
      subst h
      exact ⟨[], rest, rfl, by simp⟩
    · rename_i q hr
      by_cases hpq : p.2 < q.2
      · rw [if_pos hpq] at h
        injection h with h
        subst h
        obtain ⟨r1, r2, hrest, hbound⟩ := ih hr
        refine ⟨p :: r1, r2, by rw [hrest]; rfl, ?_⟩
        intro x hx
        rcases List.mem_cons.mp hx with rfl | hx2
        · exact hpq
        · exact hbound x hx2
      · rw [if_neg hpq] at h
        injection h with h
        subst h
        exact ⟨[], rest, rfl, by simp⟩

lemma mapME_ok_forall₂ {α β : Type} {f : α → Except WorkflowError β} {l : List α}
    {out : List β} (h : mapME f l = Except.ok out) :
    List.Forall₂ (fun a b => f a = Except.ok b) l out := by
  induction l generalizing out with
  | nil =>
    rw [mapME] at h
    injection h with h
    subst h
    exact List.Forall₂.nil
  | cons a l ih =>
    rw [mapME] at h
    cases hfa : f a with
    | error e =>
      rw [hfa] at h
      exact Except.noConfusion h
    | ok b =>
      rw [hfa] at h
      cases hml : mapME f l with
      | error e =>
        rw [hml] at h
        exact Except.noConfusion h
      | ok r =>
        rw [hml] at h
        injection h with h
        subst h
        exact List.Forall₂.cons hfa (ih hml)

lemma mapME_error_of_mem {α β : Type} {f : α → Except WorkflowError β} {l : List α}
    {a : α} {e : WorkflowError} (ha : a ∈ l) (he : f a = Except.error e) :
    ∃ e2, mapME f l = Except.error e2 := by
  induction l with
  | nil => cases ha
  | cons x l ih =>
    cases hfx : f x with
    | error e1 => exact ⟨e1, by rw [mapME, hfx]⟩
    | ok b =>
      rcases List.mem_cons.mp ha with rfl | hmem
      · rw [hfx] at he
        exact Except.noConfusion he
      · obtain ⟨e2, h2⟩ := ih hmem
        exact ⟨e2, by rw [mapME, hfx, h2]⟩

lemma forall₂_mem_right {α β : Type} {R : α → β → Prop} {l : List α} {l2 : List β}
    (h : List.Forall₂ R l l2) {b : β} (hb : b ∈ l2) : ∃ a ∈ l, R a b := by
  induction h with
  | nil => cases hb
  | cons hR htail ih =>
    rcases List.mem_cons.mp hb with rfl | hb2
    · exact ⟨_, List.mem_cons_self _ _, hR⟩
    · obtain ⟨a, ha, hr⟩ := ih hb2
      exact ⟨a, List.mem_cons_of_mem _ ha, hr⟩

lemma forall₂_mem_left {α β : Type} {R : α → β → Prop} {l : List α} {l2 : List β}
    (h : List.Forall₂ R l l2) {a : α} (ha : a ∈ l) : ∃ b ∈ l2, R a b := by
  induction h with
  | nil => cases ha
  | cons hR htail ih =>
    rcases List.mem_cons.mp ha with rfl | ha2
    · exact ⟨_, List.mem_cons_self _ _, hR⟩
    · obtain ⟨b, hb, hr⟩ := ih ha2
      exact ⟨b, List.mem_cons_of_mem _ hb, hr⟩

lemma forall₂_append_cons_right {α β : Type} {R : α → β → Prop} {l : List α}
    {s1 : List β} {b : β} {s2 : List β} (h : List.Forall₂ R l (s1 ++ b :: s2)) :
    ∃ g1 c g2, l = g1 ++ c :: g2 ∧ List.Forall₂ R g1 s1 ∧ R c b ∧
      List.Forall₂ R g2 s2 := by
  induction s1 generalizing l with
  | nil =>
    cases h with
    | cons hR ht => exact ⟨[], _, _, rfl, List.Forall₂.nil, hR, ht⟩
  | cons y s1 ih =>
    cases h with
    | cons hR ht =>
      obtain ⟨g1, c, g2, rfl, h1, hc, h2⟩ := ih ht
      exact ⟨_ :: g1, c, g2, rfl, List.Forall₂.cons hR h1, hc, h2⟩

lemma forall₂_singleton_right {α β : Type} {R : α → β → Prop} {a : α} {l2 : List β}
    (h : List.Forall₂ R [a] l2) : ∃ b, l2 = [b] ∧ R a b := by
  cases h with
  | cons hR ht =>
    cases ht
    exact ⟨_, rfl, hR⟩

lemma scoreConfig_ok_iff {α : Type} {mk : α → Pipeline} {X : Matrix} {Y : List ℚ}
    {splits : List (Finset ℕ × Finset ℕ)} {c : α} {p : α × ℚ} :
    scoreConfig mk X Y splits c = Except.ok p ↔
      p.1 = c ∧ cvMeanScore (mk c) X Y splits = Except.ok p.2 := by
  unfold scoreConfig
  cases h : cvMeanScore (mk c) X Y splits with
  | error e => simp
  | ok s =>
    constructor
    · intro hp
      injection hp with hp
      subst hp
      exact ⟨rfl, rfl⟩
    · rintro ⟨h1, h2⟩
      injection h2 with h2
      obtain ⟨p1, p2⟩ := p
      simp only at h1 h2
      rw [h1, h2]

lemma mem_idxList {s : Finset ℕ} {i : ℕ} (h : i ∈ idxList s) : i ∈ s := by
  unfold idxList at h
  rw [List.mem_filter] at h
  exact of_decide_eq_true h.2

lemma selectRows_congr {X X2 : Matrix} {s : Finset ℕ}
    (h : ∀ i ∈ s, X[i]? = X2[i]?) : selectRows X s = selectRows X2 s := by
  unfold selectRows
  apply List.filterMap_congr
  intro i hi
  exact h i (mem_idxList hi)

lemma selectVals_congr {Y Y2 : List ℚ} {s : Finset ℕ}
    (h : ∀ i ∈ s, Y[i]? = Y2[i]?) : selectVals Y s = selectVals Y2 s := by
  unfold selectVals
  apply List.filterMap_congr
  intro i hi
  exact h i (mem_idxList hi)

lemma pairScore_nonneg (p q : ℚ) : 0 ≤ pairScore p q := by
  unfold pairScore
  split_ifs <;> norm_num

lemma pairScore_le_one (p q : ℚ) : pairScore p q ≤ 1 := by
  unfold pairScore
  split_ifs <;> norm_num

lemma auc_nonneg (l : List (ℚ × Bool)) : 0 ≤ auc l := by
  unfold auc
  apply div_nonneg
  · apply List.sum_nonneg
    intro x hx
    obtain ⟨p, _, rfl⟩ := List.mem_map.mp hx
    apply List.sum_nonneg
    intro y hy
    obtain ⟨q, _, rfl⟩ := List.mem_map.mp hy
    exact pairScore_nonneg p q
  · positivity

lemma auc_le_one (l : List (ℚ × Bool)) : auc l ≤ 1 := by
  unfold auc
  set P := (posScores l).length with hP
  set N := (negScores l).length with hN
  have hinner : ∀ p : ℚ, ((negScores l).map (pairScore p)).sum ≤ (N : ℚ) := by
    intro p
    have := List.sum_le_card_nsmul ((negScores l).map (pairScore p)) 1 (by
      intro x hx
      obtain ⟨q, _, rfl⟩ := List.mem_map.mp hx
      exact pairScore_le_one p q)
    simpa [hN, nsmul_eq_mul] using this
  have houter :
      ((posScores l).map (fun p => ((negScores l).map (pairScore p)).sum)).sum
        ≤ (P : ℚ) * N := by
    have := List.sum_le_card_nsmul
      ((posScores l).map (fun p => ((negScores l).map (pairScore p)).sum))
      ((N : ℚ)) (by
        intro x hx
        obtain ⟨p, _, rfl⟩ := List.mem_map.mp hx
        exact hinner p)
    simpa [hP, nsmul_eq_mul] using this
  by_cases hD : ((P : ℚ) * N) = 0
  · rw [hD, div_zero]
    norm_num
  · have hDpos : 0 < ((P : ℚ) * N) := lt_of_le_of_ne (by positivity) (Ne.symm hD)
    rw [div_le_one hDpos]
    exact houter

lemma foldEval_ok_bounds {P : Pipeline} {X : Matrix} {Y : List ℚ} {tr va : Finset ℕ}
    {s : ℚ} (h : foldEval P X Y tr va = Except.ok s) : 0 ≤ s ∧ s ≤ 1 := by
  unfold foldEval at h
  cases hf : fitPipeline P (selectRows X tr) (selectVals Y tr) with
  | error e =>
    rw [hf] at h
    exact Except.noConfusion h
  | ok fp =>
    rw [hf] at h
    injection h with h
    subst h
    exact ⟨auc_nonneg _, auc_le_one _⟩

/-- C4: for every sample count `n ≥ 2` and fold count `K` with `2 ≤ K ≤ n`,
the fold partitioner produces exactly `K` groups of row indices that are
pairwise disjoint, all non-empty, and whose union is the full index set
`{0..n-1}`; fold `i`'s validation set is group `i` and its training set is
the union of the other `K - 1` groups. -/
theorem C4_fold_partition (n K : ℕ) (h2 : 2 ≤ K) (hKn : K ≤ n) :
    ∃ gs : List (Finset ℕ),
      kfolds n K = Except.ok gs ∧
      gs.length = K ∧
      (∀ g ∈ gs, g.Nonempty) ∧
      (∀ i j, i ≠ j → Disjoint (kfGroup n K i) (kfGroup n K j)) ∧
      (Finset.range K).biUnion (kfGroup n K) = Finset.range n ∧
      (∀ i, i < K → gs[i]? = some (valIdx n K i)) ∧
      (∀ i, trainIdx n K i = ((Finset.range K).erase i).biUnion (kfGroup n K)) := by
  have hK : 0 < K := by omega
  refine ⟨(List.range K).map (kfGroup n K), ?_, ?_, ?_, ?_, ?_, ?_, ?_⟩
  · unfold kfolds
    rw [if_neg (by omega)]
  · simp
  · intro g hg
    simp only [List.mem_map, List.mem_range] at hg
    obtain ⟨i, hi, rfl⟩ := hg
    exact kfGroup_nonempty n K hK hKn hi
  · intro i j hij
    exact kfGroup_disjoint n K hij
  · exact kfGroup_biUnion n K hK hKn
  · intro i hi
    simp [List.getElem?_map, List.getElem?_range, hi, valIdx]
  · intro i
    exact trainIdx_eq_biUnion n K hK hKn

/-- Witness for C4 at the concrete input `n = 4`, `K = 2`. -/
theorem C4_fold_partition_witness :
    ∃ gs : List (Finset ℕ),
      kfolds 4 2 = Except.ok gs ∧
      gs.length = 2 ∧
      (∀ g ∈ gs, g.Nonempty) ∧
      (∀ i j, i ≠ j → Disjoint (kfGroup 4 2 i) (kfGroup 4 2 j)) ∧
      (Finset.range 2).biUnion (kfGroup 4 2) = Finset.range 4 ∧
      (∀ i, i < 2 → gs[i]? = some (valIdx 4 2 i)) ∧
      (∀ i, trainIdx 4 2 i = ((Finset.range 2).erase i).biUnion (kfGroup 4 2)) :=
  C4_fold_partition 4 2 (by decide) (by decide)

/-- C6: for every `n`, a fold count `K < 2` (in particular `K = 1`) or `K > n`
makes the partitioner fail with an `InvalidConfiguration` error; it never
silently clamps the fold count and returns a partition. -/
theorem C6_invalid_fold_count (n K : ℕ) (h : K < 2 ∨ n < K) :
    kfolds n K = Except.error (WorkflowError.invalidConfiguration "n_folds out of range") ∧
    ∀ gs, kfolds n K ≠ Except.ok gs := by
  have herr : kfolds n K
      = Except.error (WorkflowError.invalidConfiguration "n_folds out of range") := by
    unfold kfolds
    rw [if_pos h]
  refine ⟨herr, ?_⟩
  intro gs hgs
  rw [herr] at hgs
  exact Except.noConfusion hgs

/-- Witness for C6 at the concrete input `n = 5`, `K = 1`. -/
theorem C6_invalid_fold_count_witness :
    kfolds 5 1 = Except.error (WorkflowError.invalidConfiguration "n_folds out of range") ∧
    ∀ gs, kfolds 5 1 ≠ Except.ok gs :=
  C6_invalid_fold_count 5 1 (Or.inl (by decide))

/-- C1: whenever the grid search returns a best pair, the returned
configuration is in the grid, its score is its own mean validation score,
every configuration in the grid scores at most the returned score, the
returned configuration is the first in enumeration order attaining that
score, and a one-element grid returns exactly its single element. -/
theorem C1_best_selection {α : Type} (mk : α → Pipeline) (X : Matrix) (Y : List ℚ)
    (splits : List (Finset ℕ × Finset ℕ)) (grid : List α) (b : α × ℚ)
    (hok : gridSearchCV mk X Y splits grid = Except.ok b) :
    b.1 ∈ grid ∧
    cvMeanScore (mk b.1) X Y splits = Except.ok b.2 ∧
    (∀ c ∈ grid, ∀ s, cvMeanScore (mk c) X Y splits = Except.ok s → s ≤ b.2) ∧
    (∃ g1 g2, grid = g1 ++ b.1 :: g2 ∧
      ∀ c ∈ g1, ∀ s, cvMeanScore (mk c) X Y splits = Except.ok s → s < b.2) ∧
    (∀ c0, grid = [c0] → b.1 = c0) := by
  unfold gridSearchCV at hok
  split at hok
  · exact Except.noConfusion hok
  · rename_i scored hsc
    split at hok
    · rename_i q hq
      injection hok with hok
      subst hok
      have hrel := mapME_ok_forall₂ hsc
      obtain ⟨c, hcg, hrelc⟩ := forall₂_mem_right hrel (bestBy_mem hq)
      obtain ⟨hfst, hcv⟩ := scoreConfig_ok_iff.mp hrelc
      subst hfst
      refine ⟨hcg, hcv, ?_, ?_, ?_⟩
      · intro c2 hc2 s hs
        obtain ⟨p, hp, hrp⟩ := forall₂_mem_left hrel hc2
        obtain ⟨hp1, hp2⟩ := scoreConfig_ok_iff.mp hrp
        rw [hs] at hp2
        rw [Except.ok.inj hp2]
        exact bestBy_max hq p hp
      · obtain ⟨s1, s2, hsplit, hbound⟩ := bestBy_first hq
        rw [hsplit] at hrel
        obtain ⟨g1, c2, g2, hgeq, h1, hcb, h2⟩ := forall₂_append_cons_right hrel
        obtain ⟨hc1, _⟩ := scoreConfig_ok_iff.mp hcb
        refine ⟨g1, g2, by rw [hgeq, hc1], ?_⟩
        intro c3 hc3 s hs
        obtain ⟨p, hp, hrp⟩ := forall₂_mem_left h1 hc3
        obtain ⟨hp1, hp2⟩ := scoreConfig_ok_iff.mp hrp
        rw [hs] at hp2
        rw [Except.ok.inj hp2]
        exact hbound p hp
      · intro c0 hg
        subst hg
        obtain ⟨p, rfl, hR⟩ := forall₂_singleton_right hrel
        simp only [bestBy] at hq
        rw [← Option.some.inj hq]
        exact (scoreConfig_ok_iff.mp hR).1
    · exact Except.noConfusion hok

/-- C2: whenever the per-fold evaluation of a configuration succeeds, the
reported cross-validation score is the arithmetic mean of the per-fold AUC
values, the per-fold list matches the splits one-to-one, and every per-fold
AUC value lies in the closed interval `[0, 1]`. -/
theorem C2_mean_auc_bounds (P : Pipeline) (X : Matrix) (Y : List ℚ)
    (splits : List (Finset ℕ × Finset ℕ)) (l : List ℚ)
    (hok : cvScores P X Y splits = Except.ok l) :
    cvMeanScore P X Y splits = Except.ok (mean l) ∧
    List.Forall₂ (fun sp s => foldEval P X Y sp.1 sp.2 = Except.ok s) splits l ∧
    l.length = splits.length ∧
    (∀ s ∈ l, 0 ≤ s ∧ s ≤ 1) := by
  have hrel : List.Forall₂ (fun sp s => foldEval P X Y sp.1 sp.2 = Except.ok s)
      splits l := mapME_ok_forall₂ hok
  refine ⟨?_, hrel, ?_, ?_⟩
  · unfold cvMeanScore
    rw [hok]
    rfl
  · exact (List.Forall₂.length_eq hrel).symm
  · intro s hs
    obtain ⟨sp, _, hsp⟩ := forall₂_mem_right hrel hs
    exact foldEval_ok_bounds hsp

/-- C5: the fold partitioner is a pure function of `(n, K)` — two calls with
equal arguments give bit-identical partitions and splits — and within one
grid search every configuration of the grid is scored against the same
shared splits. -/
theorem C5_shared_partition (n1 K1 n2 K2 : ℕ) (hn : n1 = n2) (hK : K1 = K2)
    {α : Type} (mk : α → Pipeline) (X : Matrix) (Y : List ℚ)
    (splits : List (Finset ℕ × Finset ℕ)) (grid : List α) (c : α) (hc : c ∈ grid)
    (b : α × ℚ) (hok : gridSearchCV mk X Y splits grid = Except.ok b) :
    kfolds n1 K1 = kfolds n2 K2 ∧
    kfoldSplits n1 K1 = kfoldSplits n2 K2 ∧
    ∃ s, cvMeanScore (mk c) X Y splits = Except.ok s := by
  subst hn
  subst hK
  refine ⟨rfl, rfl, ?_⟩
  unfold gridSearchCV at hok
  split at hok
  · exact Except.noConfusion hok
  · rename_i scored hsc
    have hrel := mapME_ok_forall₂ hsc
    obtain ⟨p, _, hrp⟩ := forall₂_mem_left hrel hc
    exact ⟨p.2, (scoreConfig_ok_iff.mp hrp).2⟩

/-- C8: if some pipeline stage fails to fit on some (configuration, fold)
pair of the search — so that fitting that configuration's pipeline on that
fold's training data errors — the whole grid search invocation returns an
error and never a result: no silent skipping, no partial results. -/
theorem C8_fit_failure_aborts {α : Type} (mk : α → Pipeline) (X : Matrix)
    (Y : List ℚ) (splits : List (Finset ℕ × Finset ℕ)) (grid : List α) (c : α)
    (hc : c ∈ grid) (tr va : Finset ℕ) (hsp : (tr, va) ∈ splits)
    (e : WorkflowError)
    (hfail : fitPipeline (mk c) (selectRows X tr) (selectVals Y tr) = Except.error e) :
    (∃ e2, gridSearchCV mk X Y splits grid = Except.error e2) ∧
    ∀ b, gridSearchCV mk X Y splits grid ≠ Except.ok b := by
  have hfold : foldEval (mk c) X Y tr va = Except.error e := by
    unfold foldEval
    rw [hfail]
  have hcv : ∃ e2, cvScores (mk c) X Y splits = Except.error e2 := by
    apply mapME_error_of_mem hsp
    exact hfold
  obtain ⟨e2, hcv2⟩ := hcv
  have hmean : cvMeanScore (mk c) X Y splits = Except.error e2 := by
    unfold cvMeanScore
    rw [hcv2]
    rfl
  have hsc : scoreConfig mk X Y splits c = Except.error e2 := by
    unfold scoreConfig
    rw [hmean]
  obtain ⟨e3, hall⟩ := mapME_error_of_mem hc hsc
  have herr : gridSearchCV mk X Y splits grid = Except.error e3 := by
    unfold gridSearchCV
    rw [hall]
  refine ⟨⟨e3, herr⟩, ?_⟩
  intro b hb
  rw [herr] at hb
  exact Except.noConfusion hb

/-- C3: the polynomial-pipeline grid enumerates exactly the Cartesian
product of the four candidate lists (degree, interaction-only flag, C,
penalty), and its size is the product of the four candidate counts,
`2 * 2 * 6 * 2 = 48`. -/
theorem C3_poly_grid_cartesian :
    parameters_poly.length
        = degrees.length * interactionOnlyCands.length * lrCs.length * penalties.length ∧
    parameters_poly.length = 48 ∧
    ∀ cfg : PolyConfig, cfg ∈ parameters_poly ↔
      (cfg.degree ∈ degrees ∧ cfg.interactionOnly ∈ interactionOnlyCands ∧
        cfg.C ∈ lrCs ∧ cfg.penalty ∈ penalties) := by
  refine ⟨by rfl, by rfl, ?_⟩
  intro cfg
  constructor
  · intro h
    simp only [parameters_poly, List.mem_flatMap, List.mem_map] at h
    obtain ⟨d, hd, io, hio, c, hc, p, hp, heq⟩ := h
    subst heq
    exact ⟨hd, hio, hc, hp⟩
  · rintro ⟨h1, h2, h3, h4⟩
    simp only [parameters_poly, List.mem_flatMap, List.mem_map]
    obtain ⟨d, io, c, p⟩ := cfg
    exact ⟨d, h1, io, h2, c, h3, p, h4, rfl⟩

/-- C7: the fitted state of a pipeline on a fold is derived only from the
fold's training rows (rows outside the training index set never influence
it), the stage order of the fitted pipeline is exactly the construction
order, and applying a fitted pipeline only applies the learned transforms
and decision function — it refits nothing. -/
theorem C7_pipeline_no_leakage (P : Pipeline) (X X2 : Matrix) (Y Y2 : List ℚ)
    (tr : Finset ℕ) (hX : ∀ i ∈ tr, X[i]? = X2[i]?) (hY : ∀ i ∈ tr, Y[i]? = Y2[i]?) :
    fitPipeline P (selectRows X tr) (selectVals Y tr)
      = fitPipeline P (selectRows X2 tr) (selectVals Y2 tr) ∧
    (∀ fp, fitPipeline P (selectRows X tr) (selectVals Y tr) = Except.ok fp →
      fp.stageNames = P.transforms.map TransformStage.name ++ [P.terminal.name]) ∧
    (∀ fp Xv, predictFitted fp Xv = fp.decisionFun (applyAll fp.transFuns Xv)) := by
  refine ⟨?_, ?_, fun fp Xv => rfl⟩
  · rw [selectRows_congr hX, selectVals_congr hY]
  · intro fp h
    unfold fitPipeline at h
    split at h
    · exact Except.noConfusion h
    · rename_i fs Xfinal hft
      split at h
      · exact Except.noConfusion h
      · rename_i dec hd
        injection h with h
        subst h
        rfl

/-- C9: exactly the five columns `incalls, creditcd, marryyes, travel,
pcown` are dropped from every row, the kept fields retain their values and
relative order, `churndep` is excluded from the feature rows, and the row
order of the table, the feature matrix and the label vector correspond
one-to-one at every index. -/
theorem C9_column_drop (data : List Row) :
    (data_subset data).length = data.length ∧
    (∀ i : ℕ, (data_subset data)[i]? = (data[i]?).map dropVars) ∧
    (∀ r ∈ data, ∀ p : String × ℚ, p ∈ dropVars r ↔ (p ∈ r ∧ p.1 ∉ dropvar_list)) ∧
    (∀ r ∈ data, List.Sublist (dropVars r) r) ∧
    (dataX data).length = data.length ∧
    (dataY data).length = data.length ∧
    (∀ i : ℕ, (dataX data)[i]? = (data[i]?).map (fun r => xRow (dropVars r))) ∧
    (∀ i : ℕ, (dataY data)[i]? = (data[i]?).map (fun r => yVal (dropVars r))) ∧
    (∀ r : Row, ∀ p ∈ xRow r, p.1 ≠ "churndep") := by
  refine ⟨by simp [data_subset], ?_, ?_, ?_, by simp [dataX, data_subset],
    by simp [dataY, data_subset], ?_, ?_, ?_⟩
  · intro i
    simp [data_subset]
  · intro r _ p
    simp [dropVars, List.mem_filter]
  · intro r _
    exact List.filter_sublist r
  · intro i
    simp [dataX, data_subset, Option.map_map]
    rfl
  · intro i
    simp [dataY, data_subset, Option.map_map]
    rfl
  · intro r p hp
    simp only [xRow, List.mem_filter, decide_eq_true_eq] at hp
    exact hp.2

/-- C10: the initial row shuffle is the only source of run-to-run
variation — any two workflow executions whose shuffled tables coincide
(in particular two runs on the same table with the same shuffle
permutation) produce identical best scores and identical winning
configurations for all three model variants. -/
theorem C10_shuffle_only_source (mkLR mkScaler : LRConfig → Pipeline)
    (mkPoly : PolyConfig → Pipeline) (d1 d2 : List Row) (σ1 σ2 : List ℕ)
    (h : applyPerm σ1 d1 = applyPerm σ2 d2) :
    workflow mkLR mkScaler mkPoly d1 σ1 = workflow mkLR mkScaler mkPoly d2 σ2 := by
  unfold workflow
  rw [h]

lemma auc_witness_eval : auc [((0:ℚ), true)] = 0 := by
  simp [auc, posScores, negScores]

lemma fit_witness_eval :
    fitPipeline lrPipe (selectRows witnessX {0}) (selectVals witnessY {0})
      = Except.ok ⟨["lr"], [], fun m => m.map (fun _ => 0)⟩ := rfl

lemma fold_witness_eval :
    foldEval lrPipe witnessX witnessY ({0} : Finset ℕ) ({1} : Finset ℕ)
      = Except.ok 0 := by
  unfold foldEval
  rw [fit_witness_eval]
  show Except.ok (auc [((0:ℚ), true)]) = Except.ok 0
  rw [auc_witness_eval]

lemma cvScores_witness_eval :
    cvScores lrPipe witnessX witnessY witnessSplits = Except.ok [0] := by
  simp only [cvScores, witnessSplits, mapME]
  rw [fold_witness_eval]

lemma cvMeanScore_witness_eval :
    cvMeanScore (mkLRPipe witnessCfg) witnessX witnessY witnessSplits
      = Except.ok 0 := by
  show cvMeanScore lrPipe witnessX witnessY witnessSplits = Except.ok 0
  unfold cvMeanScore
  rw [cvScores_witness_eval]
  show Except.ok (mean [0]) = Except.ok 0
  norm_num [mean]

lemma gridSearchCV_witness_eval :
    gridSearchCV mkLRPipe witnessX witnessY witnessSplits [witnessCfg]
      = Except.ok (witnessCfg, 0) := by
  have hsc : scoreConfig mkLRPipe witnessX witnessY witnessSplits witnessCfg
      = Except.ok (witnessCfg, 0) := by
    unfold scoreConfig
    rw [cvMeanScore_witness_eval]
  have hall : mapME (scoreConfig mkLRPipe witnessX witnessY witnessSplits) [witnessCfg]
      = Except.ok [(witnessCfg, 0)] := by
    simp only [mapME]
    rw [hsc]
  unfold gridSearchCV
  rw [hall]
  simp [bestBy]

/-- Witness for C1 at a concrete one-element grid. -/
theorem C1_best_selection_witness :
    witnessCfg ∈ [witnessCfg] ∧
    cvMeanScore (mkLRPipe witnessCfg) witnessX witnessY witnessSplits = Except.ok 0 ∧
    (∀ c ∈ [witnessCfg], ∀ s,
      cvMeanScore (mkLRPipe c) witnessX witnessY witnessSplits = Except.ok s → s ≤ 0) ∧
    (∃ g1 g2, [witnessCfg] = g1 ++ witnessCfg :: g2 ∧
      ∀ c ∈ g1, ∀ s,
        cvMeanScore (mkLRPipe c) witnessX witnessY witnessSplits = Except.ok s → s < 0) ∧
    (∀ c0, [witnessCfg] = [c0] → witnessCfg = c0) :=
  C1_best_selection mkLRPipe witnessX witnessY witnessSplits [witnessCfg]
    (witnessCfg, 0) gridSearchCV_witness_eval

/-- Witness for C2 at a concrete configuration and split list. -/
theorem C2_mean_auc_bounds_witness :
    cvMeanScore lrPipe witnessX witnessY witnessSplits = Except.ok (mean [0]) ∧
    List.Forall₂ (fun sp s => foldEval lrPipe witnessX witnessY sp.1 sp.2 = Except.ok s)
      witnessSplits [0] ∧
    ([(0:ℚ)]).length = witnessSplits.length ∧
    (∀ s ∈ [(0:ℚ)], 0 ≤ s ∧ s ≤ 1) :=
  C2_mean_auc_bounds lrPipe witnessX witnessY witnessSplits [0] cvScores_witness_eval

/-- Witness for C5 at `(n, K) = (4, 2)` and a concrete grid search. -/
theorem C5_shared_partition_witness :
    kfolds 4 2 = kfolds 4 2 ∧
    kfoldSplits 4 2 = kfoldSplits 4 2 ∧
    (∃ s, cvMeanScore (mkLRPipe witnessCfg) witnessX witnessY witnessSplits
      = Except.ok s) :=
  C5_shared_partition 4 2 4 2 rfl rfl mkLRPipe witnessX witnessY witnessSplits
    [witnessCfg] witnessCfg (List.mem_singleton.mpr rfl)
    (witnessCfg, 0) gridSearchCV_witness_eval

/-- Witness for C7 at a concrete pipeline, matrix and training index set. -/
theorem C7_pipeline_no_leakage_witness :
    fitPipeline lrPipe (selectRows witnessX {0}) (selectVals witnessY {0})
      = fitPipeline lrPipe (selectRows witnessX {0}) (selectVals witnessY {0}) ∧
    (∀ fp, fitPipeline lrPipe (selectRows witnessX {0}) (selectVals witnessY {0})
        = Except.ok fp →
      fp.stageNames = lrPipe.transforms.map TransformStage.name ++ [lrPipe.terminal.name]) ∧
    (∀ fp Xv, predictFitted fp Xv = fp.decisionFun (applyAll fp.transFuns Xv)) :=
  C7_pipeline_no_leakage lrPipe witnessX witnessX witnessY witnessY {0}
    (fun _ _ => rfl) (fun _ _ => rfl)

/-- Witness for C8 at a concrete failing pipeline family. -/
theorem C8_fit_failure_aborts_witness :
    (∃ e2, gridSearchCV mkFailPipe witnessX witnessY witnessSplits [witnessCfg]
      = Except.error e2) ∧
    ∀ b, gridSearchCV mkFailPipe witnessX witnessY witnessSplits [witnessCfg]
      ≠ Except.ok b :=
  C8_fit_failure_aborts mkFailPipe witnessX witnessY witnessSplits [witnessCfg]
    witnessCfg (List.mem_singleton.mpr rfl) {0} {1} (List.mem_singleton.mpr rfl)
    (WorkflowError.fitFailure "lr") rfl

/-- Witness for C9 at a concrete one-row table. -/
theorem C9_column_drop_witness :
    (data_subset witnessData).length = witnessData.length ∧
    (∀ i : ℕ, (data_subset witnessData)[i]? = (witnessData[i]?).map dropVars) ∧
    (∀ r ∈ witnessData, ∀ p : String × ℚ,
      p ∈ dropVars r ↔ (p ∈ r ∧ p.1 ∉ dropvar_list)) ∧
    (∀ r ∈ witnessData, List.Sublist (dropVars r) r) ∧
    (dataX witnessData).length = witnessData.length ∧
    (dataY witnessData).length = witnessData.length ∧
    (∀ i : ℕ, (dataX witnessData)[i]? = (witnessData[i]?).map (fun r => xRow (dropVars r))) ∧
    (∀ i : ℕ, (dataY witnessData)[i]? = (witnessData[i]?).map (fun r => yVal (dropVars r))) ∧
    (∀ r : Row, ∀ p ∈ xRow r, p.1 ≠ "churndep") :=
  C9_column_drop witnessData

/-- Witness for C10 at a concrete table and permutation. -/
theorem C10_shuffle_only_source_witness :
    workflow mkLRPipe mkLRPipe mkPolyPipe witnessData [0]
      = workflow mkLRPipe mkLRPipe mkPolyPipe witnessData [0] :=
  C10_shuffle_only_source mkLRPipe mkLRPipe mkPolyPipe witnessData witnessData
    [0] [0] rfl

end Cell2Cell
